import Mathlib

/-!
Verification development for the deslop CLI tool.

Shallow embedding of the core logic of the repository:
  - verification command discovery (src/verification/discover.ts)
  - verification command execution (src/verification/runner.ts)
  - the bounded verification fix-retry loop (executeVerification in the app controller)
  - finding selection and task derivation (handleToggle, handleSelectAll, handleProceed,
    generateTasksForSlopItem)
  - the markdown protocol codec (parseFindingsMarkdown, parseReviewMarkdown, extractField
    in src/run-manager.ts) and the findings write grammar from generateSlopDetectionPrompt.

Filesystem and process effects are abstracted into explicit oracle inputs (manifest
contents, per-command process outcomes, per-attempt fix-agent outcomes); the pure
control flow and data transformations follow the source line by line.
-/

set_option maxRecDepth 2048

namespace Deslop

/-! ## Data model (src/types.ts) -/

inductive CmdType where
  | build
  | test
  | lint
  | typecheck
deriving DecidableEq, Repr

inductive CmdStatus where
  | pending
  | running
  | passed
  | failed
  | skipped
deriving DecidableEq, Repr

structure VerificationCommand where
  id : String
  name : String
  command : String
  type : CmdType
  optional : Bool
  status : CmdStatus
  output : Option String := none
  exitCode : Option Int := none
deriving DecidableEq, Repr

structure SlopItem where
  id : String
  title : String
  description : String
  file : String
  line : Option Int
  severity : String
  category : String
  selected : Bool
deriving DecidableEq, Repr

structure Task where
  id : String
  title : String
  description : String
  status : String
  file : Option String
  slopItemId : String
deriving DecidableEq, Repr

structure ReviewSuggestion where
  id : String
  title : String
  description : String
  file : String
  line : Option Int
  severity : String
deriving DecidableEq, Repr

/-- HINT_ONLY_CATEGORIES from src/types.ts. -/
def HINT_ONLY_CATEGORIES : List String := ["ui-slop"]

/-! ## Verification command discovery (src/verification/discover.ts)

The filesystem is abstracted into a `Project` value holding, for each manifest the
discoverer probes, whether the file exists and the content facts the source inspects
(`package.json` scripts present, pyproject tool markers found by substring search,
Makefile targets as extracted by extractMakeTargets). `some none` encodes a file that
exists but cannot be read/parsed (the catch branches in the source). -/

structure Scripts where
  build : Bool
  typecheck : Bool
  typeCheckAlt : Bool
  test : Bool
  lint : Bool
deriving DecidableEq, Repr

structure PyMarkers where
  pytest : Bool
  mypy : Bool
  ruff : Bool
deriving DecidableEq, Repr

structure Project where
  packageJson : Option (Option Scripts)
  cargoToml : Bool
  pyproject : Option (Option PyMarkers)
  goMod : Bool
  makefile : Option (Option (List String))
deriving DecidableEq, Repr

structure DiscoveryResult where
  commands : List VerificationCommand
  sources : List String
deriving DecidableEq, Repr

/-- createCommand from src/verification/discover.ts. The name is the id with every
dash replaced by a space (the global single-character regex replace). -/
def createCommand (id command : String) (ty : CmdType) (opt : Bool) : VerificationCommand :=
  { id := id
  , name := String.mk (id.data.map fun c => if c = '-' then ' ' else c)
  , command := command
  , type := ty
  , optional := opt
  , status := CmdStatus.pending }

/-- The package.json branch of discoverVerificationCommands: one command per
recognized script, pushed in the order build, typecheck (or type-check), test, lint. -/
def pkgCommands (s : Scripts) : List VerificationCommand :=
  (if s.build then [createCommand "build" "npm run build" CmdType.build false] else []) ++
  (if s.typecheck then [createCommand "typecheck" "npm run typecheck" CmdType.typecheck true]
   else if s.typeCheckAlt then [createCommand "typecheck" "npm run type-check" CmdType.typecheck true]
   else []) ++
  (if s.test then [createCommand "test" "npm run test" CmdType.test false] else []) ++
  (if s.lint then [createCommand "lint" "npm run lint" CmdType.lint true] else [])

/-- The Cargo.toml branch: fixed commands emitted on presence alone. -/
def cargoCommands : List VerificationCommand :=
  [ createCommand "cargo-build" "cargo build" CmdType.build false
  , createCommand "cargo-test" "cargo test" CmdType.test false
  , createCommand "cargo-clippy" "cargo clippy -- -D warnings" CmdType.lint true ]

/-- The pyproject.toml branch: commands per tool marker, pushed in the order
pytest, mypy, ruff (i.e. test, typecheck, lint). -/
def pyCommands (m : PyMarkers) : List VerificationCommand :=
  (if m.pytest then [createCommand "pytest" "pytest" CmdType.test false] else []) ++
  (if m.mypy then [createCommand "mypy" "mypy ." CmdType.typecheck true] else []) ++
  (if m.ruff then [createCommand "ruff" "ruff check ." CmdType.lint true] else [])

/-- The go.mod branch: fixed commands emitted on presence alone. -/
def goCommands : List VerificationCommand :=
  [ createCommand "go-build" "go build ./..." CmdType.build false
  , createCommand "go-test" "go test ./..." CmdType.test false
  , createCommand "go-vet" "go vet ./..." CmdType.lint true ]

/-- The Makefile branch: commands per recognized target, pushed in the order
build, test, lint, typecheck. -/
def makeCommands (targets : List String) : List VerificationCommand :=
  (if targets.contains "build" then [createCommand "make-build" "make build" CmdType.build false] else []) ++
  (if targets.contains "test" then [createCommand "make-test" "make test" CmdType.test false] else []) ++
  (if targets.contains "lint" then [createCommand "make-lint" "make lint" CmdType.lint true] else []) ++
  (if targets.contains "typecheck" || targets.contains "type-check" then
    [createCommand "make-typecheck"
      (if targets.contains "typecheck" then "make typecheck" else "make type-check")
      CmdType.typecheck true]
   else [])

/-- The package.json block of discoverVerificationCommands (the filesystem reads are
abstracted into the `Project` value): the accumulator state (commands, sources) after
the first manifest probe. -/
def pkgStage (p : Project) : List VerificationCommand × List String :=
  match p.packageJson with
  | some (some s) =>
      (pkgCommands s, if (pkgCommands s).length > 0 then ["package.json"] else [])
  | _ => ([], [])

/-- The Cargo.toml block, guarded by presence and commands.length === 0. -/
def cargoStage (p : Project) (st : List VerificationCommand × List String) :
    List VerificationCommand × List String :=
  if p.cargoToml = true ∧ st.1.length = 0 then (cargoCommands, st.2 ++ ["Cargo.toml"]) else st

/-- The pyproject.toml block, guarded by commands.length === 0 and readability. -/
def pyStage (p : Project) (st : List VerificationCommand × List String) :
    List VerificationCommand × List String :=
  if st.1.length = 0 then
    match p.pyproject with
    | some (some m) =>
        (pyCommands m, if (pyCommands m).length > 0 then st.2 ++ ["pyproject.toml"] else st.2)
    | _ => st
  else st

/-- The go.mod block, guarded by presence and commands.length === 0. -/
def goStage (p : Project) (st : List VerificationCommand × List String) :
    List VerificationCommand × List String :=
  if p.goMod = true ∧ st.1.length = 0 then (goCommands, st.2 ++ ["go.mod"]) else st

/-- The Makefile fallback block, guarded by commands.length === 0 and readability. -/
def makeStage (p : Project) (st : List VerificationCommand × List String) :
    List VerificationCommand × List String :=
  if st.1.length = 0 then
    match p.makefile with
    | some (some ts) =>
        (makeCommands ts, if (makeCommands ts).length > 0 then st.2 ++ ["Makefile"] else st.2)
    | _ => st
  else st

def discoverVerificationCommands (p : Project) : DiscoveryResult :=
  let s5 := makeStage p (goStage p (pyStage p (cargoStage p (pkgStage p))))
  { commands := s5.1, sources := s5.2 }

/-! ## Verification executor (src/verification/runner.ts)

The spawned process is abstracted into a `ProcOutcome`: either the close event fired
with an exit code (null possible) and the accumulated stdout+stderr buffer, or the
error event fired (spawn failure) with the error message and whatever output had
accumulated. Both paths resolve the promise; there is no rejecting path in the source,
so the embedding is a total function of the outcome. The directory and timeout
parameters influence only which outcome occurs, never how a given outcome is mapped
to a result, so they are carried but unused. Wall-clock duration is not modelled. -/

inductive ProcOutcome where
  | closed (code : Option Int) (raw : List Char)
  | failedToSpawn (msg : List Char) (raw : List Char)
deriving DecidableEq, Repr

structure VerificationResult where
  command : VerificationCommand
  success : Bool
  output : List Char
  exitCode : Int
deriving DecidableEq, Repr

/-- truncateOutput from src/verification/runner.ts: under the cap the output is kept
whole, over the cap a marker line is prepended to the last maxLength characters
(slice(-maxLength)). -/
def truncateOutput (output : List Char) (maxLength : Nat) : List Char :=
  if output.length ≤ maxLength then output
  else ("...[truncated]...\n").data ++ output.drop (output.length - maxLength)

/-- runVerificationCommand from src/verification/runner.ts. On close, success is
exit code 0 and a null code becomes 1 via `code ?? 1`; on spawn error the result is a
failure with synthetic exit code 1 and a prefixed message. -/
def runVerificationCommand (cmd : VerificationCommand) (directory : String)
    (timeoutSec : Nat) (outcome : ProcOutcome) : VerificationResult :=
  match outcome with
  | ProcOutcome.closed code raw =>
      { command := cmd
      , success := decide (code = some 0)
      , output := truncateOutput raw 10000
      , exitCode := code.getD 1 }
  | ProcOutcome.failedToSpawn msg raw =>
      { command := cmd
      , success := false
      , output := ("Failed to run command: ").data ++ msg ++ ('\n' :: raw)
      , exitCode := 1 }

/-! ## The verification pass and fix-retry loop (executeVerification, app controller)

Command execution results are abstracted into an oracle `res : Nat → Nat → SimResult`
giving, for each attempt number and command index, the result the executor returned.
The fix agent call of each attempt is abstracted into `fixThrows : Nat → Bool` (the
stream consumption either completes or raises). One pass of the for-loop is
`runPassAux`; the recursive retry structure is `executeVerification`. -/

structure SimResult where
  success : Bool
  output : String
  exitCode : Int
deriving DecidableEq, Repr

structure FailInfo where
  cmd : VerificationCommand
  output : String
deriving DecidableEq, Repr

inductive VStatus where
  | discovering
  | running
  | fixing
  | passed
  | failed
deriving DecidableEq, Repr

/-- The for-loop of executeVerification over one attempt: commands run in order; a
failing required command is marked failed (with exit code and output recorded) and the
loop breaks, leaving every later command untouched; otherwise the command is marked
passed, or skipped when an optional command fails, and the loop continues. Returns the
updated command list, the allPassed flag and the failed-command record. The index
argument `i` tracks the loop counter feeding the result oracle. -/
def runPassAux : List VerificationCommand → Nat → (Nat → SimResult) →
    List VerificationCommand × Bool × Option FailInfo
  | [], _, _ => ([], true, none)
  | c :: rest, i, res =>
      let r := res i
      if !r.success && !c.optional then
        ({ c with status := CmdStatus.failed
                , exitCode := some r.exitCode
                , output := some r.output } :: rest
        , false
        , some { cmd := { c with exitCode := some r.exitCode, output := some r.output }
               , output := r.output })
      else
        let st := if r.success then CmdStatus.passed else CmdStatus.skipped
        let out := runPassAux rest (i + 1) res
        ({ c with status := st } :: out.1, out.2.1, out.2.2)

structure VerifOutcome where
  finalStatus : VStatus
  fixInvocations : Nat
  commands : List VerificationCommand
  review : Bool
deriving DecidableEq, Repr

/-- executeVerification from the app controller. After a pass: if all commands
passed or were skipped, the verification status becomes passed and review runs. On a
required failure, if the attempt count is still below maxRetries the fix-retry branch
runs (status fixing, fix prompt, then either the fix call throws and the status
becomes failed, or every command is reset to pending and the pass re-runs recursively
with attempt+1). If the attempt count has reached maxRetries the status becomes failed
with no further fix attempt. `fixInvocations` counts entries into the fix-retry
branch. -/
def executeVerification (cmds : List VerificationCommand) (attempt maxRetries : Nat)
    (res : Nat → Nat → SimResult) (fixThrows : Nat → Bool) : VerifOutcome :=
  if (runPassAux cmds 0 (res attempt)).2.1 then
    { finalStatus := VStatus.passed, fixInvocations := 0
    , commands := (runPassAux cmds 0 (res attempt)).1, review := true }
  else if h : attempt < maxRetries ∧ (runPassAux cmds 0 (res attempt)).2.2.isSome then
    if fixThrows attempt then
      { finalStatus := VStatus.failed, fixInvocations := 1
      , commands := (runPassAux cmds 0 (res attempt)).1, review := false }
    else
      let later := executeVerification (cmds.map fun c => { c with status := CmdStatus.pending })
        (attempt + 1) maxRetries res fixThrows
      { later with fixInvocations := later.fixInvocations + 1 }
  else
    { finalStatus := VStatus.failed, fixInvocations := 0
    , commands := (runPassAux cmds 0 (res attempt)).1, review := false }
termination_by maxRetries - attempt
decreasing_by omega

/-! ## Finding selection and task derivation (app controller and SlopList component) -/

/-- handleToggle from the app controller: flip the selected flag of the item with the
given id. -/
def handleToggle (items : List SlopItem) (id : String) : List SlopItem :=
  items.map fun item => if item.id = id then { item with selected := !item.selected } else item

/-- handleSelectAll from the app controller: sets selected := true on every item,
with no hint-only filtering. -/
def handleSelectAll (items : List SlopItem) : List SlopItem :=
  items.map fun item => { item with selected := true }

/-- handleDeselectAll from the app controller. -/
def handleDeselectAll (items : List SlopItem) : List SlopItem :=
  items.map fun item => { item with selected := false }

/-- The SlopList space-key handler: toggle the cursor item only when it exists and its
category is not hint-only. -/
def slopListSpaceKey (items : List SlopItem) (cursor : Nat) : List SlopItem :=
  match items.get? cursor with
  | some item =>
      if HINT_ONLY_CATEGORIES.contains item.category then items
      else handleToggle items item.id
  | none => items

/-- generateTasksForSlopItem from src/agent/cursor-agent.ts: one task per item, id
derived as task-<finding id>, slopItemId the finding id. -/
def generateTasksForSlopItem (item : SlopItem) : List Task :=
  [{ id := "task-" ++ item.id
   , title := "Fix: " ++ item.title
   , description := item.description
   , status := "pending"
   , file := some item.file
   , slopItemId := item.id }]

/-- The filter in handleProceed: selected findings whose category is not hint-only. -/
def selectedNonHint (items : List SlopItem) : List SlopItem :=
  items.filter fun item => item.selected && !(HINT_ONLY_CATEGORIES.contains item.category)

/-- The task list built by handleProceed (filter then flatMap). -/
def handleProceedTasks (items : List SlopItem) : List Task :=
  (selectedNonHint items).flatMap generateTasksForSlopItem

/-! ## Markdown protocol codec (src/run-manager.ts)

The parsers are regex based in the source. The embedding works on character lists and
reproduces the semantics of the two regular expressions involved:

  issue blocks   /### \d+\. \[(\w+)\] (.+)\n([\s\S]*?)(?=### \d+\.|## |$)/g
  field bullets  /\*\*Field:\*\*\s*(.+)/i

For the block regex: a match begins at the first index where the heading part
matches (the lazy body with its lookahead can always extend to the end of input, so
whole-pattern success is exactly heading success); the lazy body then extends to the
first index at which the lookahead alternatives match (a numbered heading, a line
opener of two hashes and a space — anywhere in the text, the regex has no anchors —
or end of input); the global loop resumes at the end of the previous body. For the
field regex: the first occurrence of the (case-insensitively matched) field marker is
relevant; after it, greedy whitespace backtracks until one or more non-newline
characters can be captured, which yields the remainder of the line after the
whitespace run when any non-whitespace follows, the empty string (after trimming the
single captured whitespace character) when only non-newline whitespace remains, and
no match when only newlines remain, in which case no later occurrence can exist. -/

/-- JavaScript \s on the character set the codec can produce (ASCII whitespace). -/
def isJsWS (c : Char) : Bool :=
  (c == ' ') || (c == '\t') || (c == '\n') || (c == '\r') || (c == '\x0b') || (c == '\x0c')

/-- String.prototype.trim on character lists. -/
def trimChars (cs : List Char) : List Char :=
  ((cs.dropWhile isJsWS).reverse.dropWhile isJsWS).reverse

/-- Exact literal match at the head of the input: the consumed remainder, or none. -/
def chomp : List Char → List Char → Option (List Char)
  | [], cs => some cs
  | _ :: _, [] => none
  | p :: ps, c :: cs => if c = p then chomp ps cs else none

/-- Case-insensitive literal match at the head of the input (the i flag). -/
def chompCI : List Char → List Char → Option (List Char)
  | [], cs => some cs
  | _ :: _, [] => none
  | p :: ps, c :: cs => if c.toLower = p.toLower then chompCI ps cs else none

/-- Maximal nonempty run of characters satisfying p (regex one-or-more with a
follow-up literal that p rejects). -/
def chompWhile1 (p : Char → Bool) (cs : List Char) : Option (List Char × List Char) :=
  let a := cs.takeWhile p
  if a.isEmpty then none else some (a, cs.dropWhile p)

def headingLit : List Char := ['#', '#', '#', ' ']
def twoHashLit : List Char := ['#', '#', ' ']
def dotBracketLit : List Char := ['.', ' ', '[']
def bracketSpaceLit : List Char := [']', ' ']

/-- The heading part of the block regex at the current position: three hashes and a
space, digits, a dot-space-bracket, a word-character severity, bracket-space, a
nonempty rest-of-line title, and the newline. Returns severity, title and the
remainder after the newline. The one-or-more runs are maximal, which agrees with the
greedy regex quantifiers because each following literal is rejected by the class. -/
def matchHeading (cs : List Char) : Option (List Char × List Char × List Char) :=
  (chomp headingLit cs).bind fun cs1 =>
  (chompWhile1 Char.isDigit cs1).bind fun p1 =>
  (chomp dotBracketLit p1.2).bind fun cs3 =>
  (chompWhile1 (fun c => c.isAlphanum || c == '_') cs3).bind fun p2 =>
  (chomp bracketSpaceLit p2.2).bind fun cs5 =>
  (chompWhile1 (fun c => !(c == '\n')) cs5).bind fun p3 =>
  match p3.2 with
  | c :: rest => if c = '\n' then some (p2.1, p3.1, rest) else none
  | [] => none

/-- The lookahead alternative of a numbered heading: three hashes and a space, digits,
then a dot. -/
def stopHeading (cs : List Char) : Bool :=
  match chomp headingLit cs with
  | none => false
  | some cs1 =>
    match chompWhile1 Char.isDigit cs1 with
    | none => false
    | some (_, cs2) =>
      match cs2 with
      | '.' :: _ => true
      | _ => false

/-- The body lookahead of the block regex: a numbered heading or two hashes and a
space. -/
def isStop (cs : List Char) : Bool :=
  stopHeading cs || (chomp twoHashLit cs).isSome

/-- The lazy body: everything up to the first position where the lookahead matches,
or to the end of input. -/
def takeBody : List Char → List Char × List Char
  | [] => ([], [])
  | c :: cs =>
      if isStop (c :: cs) then ([], c :: cs)
      else
        let p := takeBody cs
        (c :: p.1, p.2)

/-- One step of the global exec loop: scan for the first position where the heading
matches, then split off the lazy body. -/
def findBlock : List Char → Option (List Char × List Char × List Char × List Char)
  | [] => none
  | c :: cs =>
      match matchHeading (c :: cs) with
      | some (sev, title, rest) =>
          let p := takeBody rest
          some (sev, title, p.1, p.2)
      | none => findBlock cs

/-- The global exec loop of the block regex, fuel indexed; one unit of fuel per
extracted block. The remainder after each block is strictly shorter than its input
(the heading consumes characters), so input length plus one is always enough fuel. -/
def parseBlocksFuel : Nat → List Char → List (List Char × List Char × List Char)
  | 0, _ => []
  | fuel + 1, cs =>
      match findBlock cs with
      | none => []
      | some (sev, title, body, rest) => (sev, title, body) :: parseBlocksFuel fuel rest

/-- The full global exec loop of the block regex. -/
def parseBlocks (cs : List Char) : List (List Char × List Char × List Char) :=
  parseBlocksFuel (cs.length + 1) cs

/-- The remainder of the text after the first case-insensitive occurrence of pat, or
none when pat does not occur. -/
def findPat (pat : List Char) : List Char → Option (List Char)
  | [] => chompCI pat []
  | c :: cs =>
      match chompCI pat (c :: cs) with
      | some r => some r
      | none => findPat pat cs

/-- The field marker of the bullet regex: two asterisks, the field name, a colon and
two asterisks. -/
def fieldPat (field : List Char) : List Char :=
  '*' :: '*' :: (field ++ [':', '*', '*'])

/-- extractField from src/run-manager.ts, with the regex semantics described above:
locate the first (case-insensitive) occurrence of the field marker, then capture via
greedy whitespace followed by one or more non-newline characters, and trim. -/
def extractField (text field : List Char) : Option (List Char) :=
  (findPat (fieldPat field) text).bind fun rest =>
    if ((rest.dropWhile isJsWS).isEmpty) then
      if (rest.takeWhile isJsWS).any (fun c => !(c == '\n')) then some []
      else none
    else some (trimChars ((rest.dropWhile isJsWS).takeWhile (fun c => !(c == '\n'))))

/-- Decimal value of a digit run. -/
def digitsVal (ds : List Char) : Nat :=
  ds.foldl (fun acc c => acc * 10 + (c.toNat - '0'.toNat)) 0

/-- The unsigned digit-run part of parseInt. -/
def parseIntCore (l : List Char) : Option Nat :=
  let ds := l.takeWhile Char.isDigit
  if ds.isEmpty then none else some (digitsVal ds)

/-- parseInt(s, 10): leading whitespace skipped, optional sign, then the maximal
leading digit run; none encodes NaN. -/
def parseIntJS (s : List Char) : Option Int :=
  match s.dropWhile isJsWS with
  | [] => none
  | c :: r =>
      if c = '-' then (parseIntCore r).map (fun n => -(n : Int))
      else if c = '+' then (parseIntCore r).map (fun n => (n : Int))
      else (parseIntCore (c :: r)).map (fun n => (n : Int))

/-- JavaScript || with a string default: both null (none) and the empty string are
falsy and replaced by the default. -/
def orFalsy (o : Option (List Char)) (d : List Char) : List Char :=
  match o with
  | none => d
  | some s => if s.isEmpty then d else s

/-- The line computation `parseInt(extractField(body,'Line') || '0', 10) || undefined`:
NaN and 0 are falsy and yield undefined. -/
def lineFromField (o : Option (List Char)) : Option Int :=
  match parseIntJS (orFalsy o ['0']) with
  | none => none
  | some n => if n = 0 then none else some n

def fileLit : List Char := ['F', 'i', 'l', 'e']
def lineLit : List Char := ['L', 'i', 'n', 'e']
def categoryLit : List Char := ['C', 'a', 't', 'e', 'g', 'o', 'r', 'y']
def descriptionLit : List Char := ['D', 'e', 's', 'c', 'r', 'i', 'p', 't', 'i', 'o', 'n']

/-- The loop body of parseFindingsMarkdown: one SlopItem from one matched block. -/
def blockToItem (idx : Nat) (sev title body : List Char) : SlopItem :=
  { id := "slop-" ++ toString idx
  , title := String.mk (trimChars title)
  , description := String.mk ((extractField body descriptionLit).getD [])
  , file := String.mk (orFalsy (extractField body fileLit) ("unknown").data)
  , line := lineFromField (extractField body lineLit)
  , severity := String.mk (sev.map Char.toLower)
  , category := String.mk (orFalsy (extractField body categoryLit) ("style-inconsistency").data)
  , selected := false }

/-- parseFindingsMarkdown from src/run-manager.ts: every matched block becomes an
item, indexed from zero. -/
def parseFindingsMarkdown (content : String) : List SlopItem :=
  (parseBlocks content.data).enum.map fun p => blockToItem p.1 p.2.1 p.2.2.1 p.2.2.2

/-- The loop body of parseReviewMarkdown: one ReviewSuggestion from one matched
block (no category field). -/
def blockToSuggestion (idx : Nat) (sev title body : List Char) : ReviewSuggestion :=
  { id := "review-" ++ toString idx
  , title := String.mk (trimChars title)
  , file := String.mk (orFalsy (extractField body fileLit) ("unknown").data)
  , line := lineFromField (extractField body lineLit)
  , severity := String.mk (sev.map Char.toLower)
  , description := String.mk ((extractField body descriptionLit).getD []) }

/-- Case-sensitive substring containment (String.prototype.includes). -/
def containsSub (pat : List Char) : List Char → Bool
  | [] => (chomp pat []).isSome
  | c :: cs => (chomp pat (c :: cs)).isSome || containsSub pat cs

def noSuggestionsLit : List Char := ("No suggestions").data
def noSuggestionsUpperLit : List Char := ("NO_SUGGESTIONS").data
def looksGoodLit : List Char := ("looks good").data

/-- parseReviewMarkdown from src/run-manager.ts: the sentinel check comes first and
returns the empty list before any block extraction. -/
def parseReviewMarkdown (content : String) : List ReviewSuggestion :=
  if containsSub noSuggestionsLit content.data
      || containsSub noSuggestionsUpperLit content.data
      || containsSub looksGoodLit content.data then []
  else
    (parseBlocks content.data).enum.map fun p => blockToSuggestion p.1 p.2.1 p.2.2.1 p.2.2.2

/-! ## The findings write grammar (generateSlopDetectionPrompt, src/agent/cursor-agent.ts)

Modelled from the format the slop-detection prompt instructs the agent to write:
a document heading, an Issues Found section heading, then per finding a numbered
heading with an upper-case severity in brackets and the title, followed by File,
Line, Category and Description bullets. The claim under verification concerns a
document with exactly three well-formed issue blocks. -/

/-- Modelled from the spec: the rank of a command type in the claimed global emission
priority build, typecheck, test, lint. -/
def typeRank : CmdType → Nat
  | CmdType.build => 0
  | CmdType.typecheck => 1
  | CmdType.test => 2
  | CmdType.lint => 3

/-- Modelled from the spec: whether a rank list is nondecreasing, i.e. the commands
appear in the claimed priority order. -/
def ranksSorted : List Nat → Bool
  | [] => true
  | [_] => true
  | a :: b :: t => decide (a ≤ b) && ranksSorted (b :: t)

/-- The emission order each ecosystem actually uses in the source, keyed by the
manifest name recorded in sources. -/
def ecoOrder : String → List CmdType
  | "package.json" => [CmdType.build, CmdType.typecheck, CmdType.test, CmdType.lint]
  | "Cargo.toml" => [CmdType.build, CmdType.test, CmdType.lint]
  | "pyproject.toml" => [CmdType.test, CmdType.typecheck, CmdType.lint]
  | "go.mod" => [CmdType.build, CmdType.test, CmdType.lint]
  | "Makefile" => [CmdType.build, CmdType.test, CmdType.lint, CmdType.typecheck]
  | _ => []

/-- The commands the package.json stage would contribute (empty when the manifest is
absent, unparsable, or has no recognized scripts). -/
def pkgYield (p : Project) : List VerificationCommand :=
  match p.packageJson with
  | some (some s) => pkgCommands s
  | _ => []

/-- The commands the pyproject.toml stage would contribute. -/
def pyYield (p : Project) : List VerificationCommand :=
  match p.pyproject with
  | some (some m) => pyCommands m
  | _ => []

/-! ## Concrete inputs used by counterexamples and witnesses -/

/-- A project whose only manifest is a pyproject.toml with pytest and mypy markers. -/
def pyProject0 : Project :=
  { packageJson := none
  , cargoToml := false
  , pyproject := some (some { pytest := true, mypy := true, ruff := false })
  , goMod := false
  , makefile := none }

/-- A hint-only finding, initially unselected. -/
def hintItem0 : SlopItem :=
  { id := "slop-0", title := "Start Case label", description := "d", file := "ui.tsx"
  , line := some 3, severity := "low", category := "ui-slop", selected := true }

/-- A non-hint finding, initially selected. -/
def plainItem0 : SlopItem :=
  { id := "slop-1", title := "obvious comment", description := "d2", file := "a.ts"
  , line := none, severity := "high", category := "extra-comments", selected := true }

/-- A hint-only finding with selected := false, for the select-all counterexample. -/
def hintItemOff : SlopItem :=
  { id := "slop-2", title := "emoji label", description := "d3", file := "b.tsx"
  , line := none, severity := "low", category := "ui-slop", selected := false }

def cmdBuild0 : VerificationCommand := createCommand "build" "npm run build" CmdType.build false
def cmdTest0 : VerificationCommand := createCommand "test" "npm run test" CmdType.test false
def cmdLint0 : VerificationCommand := createCommand "lint" "npm run lint" CmdType.lint true

/-- An oracle for one pass in which only the first command fails. -/
def failFirstRes : Nat → SimResult :=
  fun k => if k = 0 then { success := false, output := "boom", exitCode := 1 }
           else { success := true, output := "", exitCode := 0 }

/-- An oracle for one pass in which only the last, optional command fails. -/
def failLastRes : Nat → SimResult :=
  fun k => if k = 2 then { success := false, output := "lint noise", exitCode := 1 }
           else { success := true, output := "", exitCode := 0 }

/-- An attempt-indexed oracle in which every attempt fails its first command. -/
def alwaysFailRes : Nat → Nat → SimResult :=
  fun _ k => if k = 0 then { success := false, output := "boom", exitCode := 1 }
             else { success := true, output := "", exitCode := 0 }

/-- An attempt-indexed oracle in which every command succeeds. -/
def allPassRes : Nat → Nat → SimResult :=
  fun _ _ => { success := true, output := "", exitCode := 0 }

def bigRaw : List Char := List.replicate 10001 'x'

/-- A review document that contains both the looks-good sentinel and a well-formed
suggestion block. -/
def reviewDoc0 : String :=
  "# Deslop Review Results\n\nOverall it looks good.\n\n## Suggestions\n\n### 1. [HIGH] Tighten helper\n- **File:** src/a.ts\n- **Line:** 5\n- **Description:** Could be simpler\n"

/-- A findings body with no field bullets at all, for the missing-field witness. -/
def bareBody0 : List Char := ("just prose, no bullets\n").data

/-! # Theorems -/

/-! ## Task derivation (C5) -/

theorem flatMap_singleton_eq_map {α β : Type} (f : α → β) (l : List α) :
    (l.flatMap fun a => [f a]) = l.map f := by
  induction l with
  | nil => rfl
  | cons a l ih => simp [List.flatMap_cons, ih]

/-- C5: at the results-to-executing proceed transition, the number of generated tasks
equals the number of findings with selected = true and a non-hint-only category, and
each such finding yields exactly one task whose id is task-<finding id> and whose
slopItemId is the finding id. -/
theorem task_derivation_exact (items : List SlopItem) :
    (handleProceedTasks items).length =
      (items.filter fun i => i.selected && !(HINT_ONLY_CATEGORIES.contains i.category)).length
    ∧ handleProceedTasks items = (selectedNonHint items).map (fun item =>
        { id := "task-" ++ item.id
        , title := "Fix: " ++ item.title
        , description := item.description
        , status := "pending"
        , file := some item.file
        , slopItemId := item.id })
    ∧ ∀ item ∈ selectedNonHint items, ∀ t ∈ generateTasksForSlopItem item,
        t.id = "task-" ++ item.id ∧ t.slopItemId = item.id := by
  have hmap : handleProceedTasks items = (selectedNonHint items).map (fun item =>
      ({ id := "task-" ++ item.id
       , title := "Fix: " ++ item.title
       , description := item.description
       , status := "pending"
       , file := some item.file
       , slopItemId := item.id } : Task)) := by
    unfold handleProceedTasks generateTasksForSlopItem
    exact flatMap_singleton_eq_map _ _
  refine ⟨?_, hmap, ?_⟩
  · rw [hmap, List.length_map]
    rfl
  · intro item _ t ht
    simp only [generateTasksForSlopItem, List.mem_singleton] at ht
    subst ht
    exact ⟨rfl, rfl⟩

theorem task_derivation_exact_witness :
    (handleProceedTasks [plainItem0, hintItem0]).length = 1
    ∧ ∀ t ∈ generateTasksForSlopItem plainItem0,
        t.id = "task-" ++ plainItem0.id ∧ t.slopItemId = plainItem0.id := by
  have h := task_derivation_exact [plainItem0, hintItem0]
  refine ⟨?_, ?_⟩
  · rw [h.1]; decide
  · intro t ht
    exact h.2.2 plainItem0 (by decide) t ht

/-! ## Hint-only findings (C4) -/

/-- C4 counterexample: the select-all operation does set selected := true on a
hint-only finding, so the claim that no selection operation ever makes the selected
field of a hint-only finding true is false on the code. -/
theorem hint_only_select_counterexample :
    hintItemOff.category ∈ HINT_ONLY_CATEGORIES
    ∧ hintItemOff.selected = false
    ∧ (handleSelectAll [hintItemOff]).map SlopItem.selected = [true] := by
  decide

/-- C4 amended: the space-key toggle path never changes a hint-only finding (so
toggling can never select one), and the proceed transition excludes hint-only
findings from the generated task list regardless of their selected flag (which
select-all can set to true); ids are assumed pairwise distinct. -/
theorem hint_only_amended (items : List SlopItem) (cursor : Nat)
    (hids : (items.map SlopItem.id).Nodup) :
    (∀ j item, items.get? j = some item →
        HINT_ONLY_CATEGORIES.contains item.category = true →
        (slopListSpaceKey items cursor).get? j = some item)
    ∧ (∀ item ∈ items, HINT_ONLY_CATEGORIES.contains item.category = true →
        ∀ t ∈ handleProceedTasks items, t.slopItemId ≠ item.id) := by
  constructor
  · intro j item hj hhint
    unfold slopListSpaceKey
    cases hc : items.get? cursor with
    | none => exact hj
    | some cit =>
        show (if HINT_ONLY_CATEGORIES.contains cit.category = true then items
              else handleToggle items cit.id).get? j = some item
        by_cases hcat : HINT_ONLY_CATEGORIES.contains cit.category = true
        · rw [if_pos hcat]
          exact hj
        · rw [if_neg hcat]
          unfold handleToggle
          rw [List.get?_map, hj]
          have hne : item.id ≠ cit.id := by
            intro heq
            have hmem1 : item ∈ items := List.get?_mem hj
            have hmem2 : cit ∈ items := List.get?_mem hc
            have : item = cit := List.inj_on_of_nodup_map hids hmem1 hmem2 heq
            subst this
            exact hcat hhint
          simp [hne]
  · intro item hmem hhint t ht heq
    unfold handleProceedTasks at ht
    obtain ⟨src, hsrc, htt⟩ := List.mem_flatMap.mp ht
    simp only [generateTasksForSlopItem, List.mem_singleton] at htt
    subst htt
    simp only at heq
    have hsrc2 : src ∈ items ∧ (src.selected && !(HINT_ONLY_CATEGORIES.contains src.category)) = true := by
      simpa [selectedNonHint] using List.mem_filter.mp hsrc
    have hsame : src = item :=
      List.inj_on_of_nodup_map hids hsrc2.1 hmem heq
    subst hsame
    rcases Bool.and_eq_true_iff.mp hsrc2.2 with ⟨_, h2⟩
    rw [hhint] at h2
    exact absurd h2 (by decide)

theorem hint_only_amended_witness :
    (slopListSpaceKey [plainItem0, hintItem0] 1).get? 1 = some hintItem0
    ∧ ∀ t ∈ handleProceedTasks [plainItem0, hintItem0], t.slopItemId ≠ hintItem0.id := by
  have h := hint_only_amended [plainItem0, hintItem0] 1 (by decide)
  exact ⟨h.1 1 hintItem0 (by decide) (by decide),
         fun t ht => h.2 hintItem0 (by decide) (by decide) t ht⟩

/-! ## Executor totality and classification (C8) -/

/-- C8: for every command, directory, timeout and process outcome, the executor
resolves with a result (it is a total function of the outcome); success is true
exactly when the exit code is 0; a spawn failure resolves as a failed result with
synthetic exit code 1; and an over-cap output keeps the last 10000 characters of the
raw output as a suffix of the returned output. -/
theorem executor_total_classification (cmd : VerificationCommand) (directory : String)
    (timeoutSec : Nat) :
    (∀ code raw,
        (runVerificationCommand cmd directory timeoutSec (ProcOutcome.closed code raw)).success = true
          ↔ code = some 0)
    ∧ (∀ msg raw,
        (runVerificationCommand cmd directory timeoutSec (ProcOutcome.failedToSpawn msg raw)).success = false
        ∧ (runVerificationCommand cmd directory timeoutSec (ProcOutcome.failedToSpawn msg raw)).exitCode = 1)
    ∧ (∀ code raw, 10000 < raw.length →
        List.IsSuffix (raw.drop (raw.length - 10000))
          (runVerificationCommand cmd directory timeoutSec (ProcOutcome.closed code raw)).output
        ∧ (raw.drop (raw.length - 10000)).length = 10000) := by
  refine ⟨?_, ?_, ?_⟩
  · intro code raw
    simp [runVerificationCommand]
  · intro msg raw
    exact ⟨rfl, rfl⟩
  · intro code raw h
    constructor
    · simp only [runVerificationCommand, truncateOutput]
      rw [if_neg (by omega)]
      exact ⟨("...[truncated]...\n").data, rfl⟩
    · rw [List.length_drop]
      omega

theorem executor_total_classification_witness :
    10000 < bigRaw.length
    ∧ List.IsSuffix (bigRaw.drop (bigRaw.length - 10000))
        (runVerificationCommand cmdBuild0 "." 300 (ProcOutcome.closed (some 2) bigRaw)).output := by
  have hlen : 10000 < bigRaw.length := by
    rw [bigRaw, List.length_replicate]
    omega
  exact ⟨hlen, ((executor_total_classification cmdBuild0 "." 300).2.2 (some 2) bigRaw hlen).1⟩

/-! ## Review sentinel precedence (C10) -/

/-- C10: whenever the review document contains the substring No suggestions,
NO_SUGGESTIONS, or looks good anywhere, parseReviewMarkdown returns the empty
suggestion list, regardless of any suggestion blocks also present: the sentinel check
precedes block extraction. -/
theorem review_sentinel_precedence (content : String)
    (h : containsSub noSuggestionsLit content.data = true
       ∨ containsSub noSuggestionsUpperLit content.data = true
       ∨ containsSub looksGoodLit content.data = true) :
    parseReviewMarkdown content = [] := by
  unfold parseReviewMarkdown
  rcases h with h | h | h <;> simp [h]

theorem review_sentinel_precedence_witness :
    containsSub looksGoodLit reviewDoc0.data = true
    ∧ parseReviewMarkdown reviewDoc0 = [] := by
  have h : containsSub looksGoodLit reviewDoc0.data = true := by decide
  exact ⟨h, review_sentinel_precedence reviewDoc0 (Or.inr (Or.inr h))⟩

/-! ## Parser missing-field tolerance (C9) -/

/-- C9: a block matched by the findings parser with a missing Line bullet yields
line = none, a missing File bullet yields the file unknown, a missing Description
bullet yields the empty description, and a missing Category bullet yields the default
category; parseFindingsMarkdown maps every matched block through this total
construction, never rejecting a block. -/
theorem parser_missing_field_defaults (idx : Nat) (sev title body : List Char) :
    (findPat (fieldPat lineLit) body = none → (blockToItem idx sev title body).line = none)
    ∧ (findPat (fieldPat fileLit) body = none → (blockToItem idx sev title body).file = "unknown")
    ∧ (findPat (fieldPat descriptionLit) body = none →
        (blockToItem idx sev title body).description = "")
    ∧ (findPat (fieldPat categoryLit) body = none →
        (blockToItem idx sev title body).category = "style-inconsistency")
    ∧ ∀ content : String, parseFindingsMarkdown content =
        (parseBlocks content.data).enum.map fun p => blockToItem p.1 p.2.1 p.2.2.1 p.2.2.2 := by
  refine ⟨?_, ?_, ?_, ?_, fun _ => rfl⟩
  all_goals intro h
  · have hnone : extractField body lineLit = none := by unfold extractField; rw [h]; rfl
    show lineFromField (extractField body lineLit) = none
    rw [hnone]
    decide
  · have hnone : extractField body fileLit = none := by unfold extractField; rw [h]; rfl
    show String.mk (orFalsy (extractField body fileLit) ("unknown").data) = "unknown"
    rw [hnone]
    rfl
  · have hnone : extractField body descriptionLit = none := by unfold extractField; rw [h]; rfl
    show String.mk ((extractField body descriptionLit).getD []) = ""
    rw [hnone]
    rfl
  · have hnone : extractField body categoryLit = none := by unfold extractField; rw [h]; rfl
    show String.mk (orFalsy (extractField body categoryLit) ("style-inconsistency").data) =
      "style-inconsistency"
    rw [hnone]
    rfl

/-! ## Verification pass and fix-retry loop (C1, C2, C3) -/

theorem runPassAux_failed_isSome (cmds : List VerificationCommand) :
    ∀ i res, (runPassAux cmds i res).2.1 = false → (runPassAux cmds i res).2.2.isSome = true := by
  induction cmds with
  | nil => intro i res h; simp [runPassAux] at h
  | cons c rest ih =>
      intro i res h
      by_cases hcond : (!(res i).success && !c.optional) = true
      · simp [runPassAux, hcond]
      · rw [Bool.not_eq_true] at hcond
        simp only [runPassAux, hcond, Bool.false_eq_true, if_false] at h ⊢
        exact ih (i + 1) res h

theorem runPassAux_halt (cmds : List VerificationCommand) :
    ∀ i res j cj, cmds.get? j = some cj → (res (i + j)).success = false → cj.optional = false →
      (∀ k, k < j → ∀ ck, cmds.get? k = some ck →
        (res (i + k)).success = true ∨ ck.optional = true) →
      (runPassAux cmds i res).2.1 = false
      ∧ (runPassAux cmds i res).2.2.isSome = true
      ∧ ∀ m, j < m → (runPassAux cmds i res).1.get? m = cmds.get? m := by
  induction cmds with
  | nil => intro i res j cj h; simp at h
  | cons c rest ih =>
      intro i res j cj hget hfail hopt hbefore
      cases j with
      | zero =>
          have hc : c = cj := by simpa using hget
          subst hc
          rw [Nat.add_zero] at hfail
          have hcond : (!(res i).success && !c.optional) = true := by
            simp [hfail, hopt]
          refine ⟨by simp [runPassAux, hcond], by simp [runPassAux, hcond], ?_⟩
          intro m hm
          match m, hm with
          | m' + 1, _ =>
              simp only [runPassAux, hcond, if_true]
              rfl
      | succ j' =>
          have hc := hbefore 0 (Nat.succ_pos j') c (by simp)
          rw [Nat.add_zero] at hc
          have hcond : (!(res i).success && !c.optional) = false := by
            rcases hc with h | h <;> simp [h]
          have hfail2 : (res ((i + 1) + j')).success = false := by
            have harith : i + 1 + j' = i + (j' + 1) := by omega
            rw [harith]
            exact hfail
          have hbefore2 : ∀ k, k < j' → ∀ ck, rest.get? k = some ck →
              (res ((i + 1) + k)).success = true ∨ ck.optional = true := by
            intro k hk ck hgetk
            have harith : i + 1 + k = i + (k + 1) := by omega
            rw [harith]
            exact hbefore (k + 1) (Nat.succ_lt_succ hk) ck (by simpa using hgetk)
          have hrest := ih (i + 1) res j' cj (by simpa using hget) hfail2 hopt hbefore2
          refine ⟨?_, ?_, ?_⟩
          · simp only [runPassAux, hcond, Bool.false_eq_true, if_false]
            exact hrest.1
          · simp only [runPassAux, hcond, Bool.false_eq_true, if_false]
            exact hrest.2.1
          · intro m hm
            match m, hm with
            | m' + 1, hm =>
                simp only [runPassAux, hcond, Bool.false_eq_true, if_false]
                show (runPassAux rest (i + 1) res).1.get? m' = rest.get? m'
                exact hrest.2.2 m' (Nat.lt_of_succ_lt_succ hm)

/-- C2: within one verification pass, when the command at position j is required and
fails, and every earlier command either succeeded or is optional, the pass records
allPassed = false with a failed-command record (the exact condition under which
executeVerification enters the fix-retry branch instead of review), and every command
after position j is left exactly as it was in the input list — on a fresh pass these
commands are still pending, so they are never marked skipped, passed or failed. -/
theorem required_failure_halts_pass (cmds : List VerificationCommand)
    (res : Nat → SimResult) (j : Nat) (cj : VerificationCommand)
    (hget : cmds.get? j = some cj) (hfail : (res j).success = false)
    (hreq : cj.optional = false)
    (hbefore : ∀ k, k < j → ∀ ck, cmds.get? k = some ck →
        (res k).success = true ∨ ck.optional = true) :
    (runPassAux cmds 0 res).2.1 = false
    ∧ (runPassAux cmds 0 res).2.2.isSome = true
    ∧ ∀ m, j < m → (runPassAux cmds 0 res).1.get? m = cmds.get? m := by
  refine runPassAux_halt cmds 0 res j cj hget ?_ hreq ?_
  · rw [Nat.zero_add]
    exact hfail
  · intro k hk ck hgetk
    rw [Nat.zero_add]
    exact hbefore k hk ck hgetk

theorem required_failure_halts_pass_witness :
    (runPassAux [cmdBuild0, cmdTest0, cmdLint0] 0 failFirstRes).2.1 = false
    ∧ (runPassAux [cmdBuild0, cmdTest0, cmdLint0] 0 failFirstRes).2.2.isSome = true
    ∧ (runPassAux [cmdBuild0, cmdTest0, cmdLint0] 0 failFirstRes).1.get? 2 =
        [cmdBuild0, cmdTest0, cmdLint0].get? 2 := by
  have h := required_failure_halts_pass [cmdBuild0, cmdTest0, cmdLint0] failFirstRes 0 cmdBuild0
    (by decide) (by decide) (by decide)
    (fun k hk => absurd hk (Nat.not_lt_zero k))
  exact ⟨h.1, h.2.1, h.2.2 2 (by omega)⟩

theorem runPassAux_all_ok (cmds : List VerificationCommand) :
    ∀ i res, (∀ k ck, cmds.get? k = some ck → (res (i + k)).success = true ∨ ck.optional = true) →
      (runPassAux cmds i res).2.1 = true
      ∧ (runPassAux cmds i res).2.2 = none
      ∧ ∀ k ck, cmds.get? k = some ck →
          (runPassAux cmds i res).1.get? k =
            some { ck with status :=
              if (res (i + k)).success then CmdStatus.passed else CmdStatus.skipped } := by
  induction cmds with
  | nil =>
      intro i res _
      refine ⟨rfl, rfl, ?_⟩
      intro k ck h
      simp at h
  | cons c rest ih =>
      intro i res hall
      have hc := hall 0 c (by simp)
      rw [Nat.add_zero] at hc
      have hcond : (!(res i).success && !c.optional) = false := by
        rcases hc with h | h <;> simp [h]
      have hall2 : ∀ k ck, rest.get? k = some ck →
          (res ((i + 1) + k)).success = true ∨ ck.optional = true := by
        intro k ck hgetk
        have harith : i + 1 + k = i + (k + 1) := by omega
        rw [harith]
        exact hall (k + 1) ck (by simpa using hgetk)
      have hrest := ih (i + 1) res hall2
      refine ⟨?_, ?_, ?_⟩
      · simp only [runPassAux, hcond, Bool.false_eq_true, if_false]
        exact hrest.1
      · simp only [runPassAux, hcond, Bool.false_eq_true, if_false]
        exact hrest.2.1
      · intro k ck hgetk
        cases k with
        | zero =>
            have hck : c = ck := by simpa using hgetk
            subst hck
            simp only [runPassAux, hcond, Bool.false_eq_true, if_false, Nat.add_zero]
            rfl
        | succ k' =>
            simp only [runPassAux, hcond, Bool.false_eq_true, if_false]
            show (runPassAux rest (i + 1) res).1.get? k' =
              some { ck with status :=
                if (res (i + (k' + 1))).success then CmdStatus.passed else CmdStatus.skipped }
            have harith : i + (k' + 1) = (i + 1) + k' := by omega
            rw [harith]
            exact hrest.2.2 k' ck (by simpa using hgetk)

/-- C3: when every command of a pass either succeeds or is optional, a failing
optional command is marked skipped and execution continues (every command still
receives its passed or skipped status), the allPassed flag stays true, no
failed-command record is produced, and executeVerification marks the verification
passed with zero fix invocations, proceeding to review. -/
theorem optional_failures_never_block (cmds : List VerificationCommand)
    (attempt maxRetries : Nat) (res : Nat → Nat → SimResult) (fixThrows : Nat → Bool)
    (hall : ∀ k ck, cmds.get? k = some ck →
        (res attempt k).success = true ∨ ck.optional = true) :
    (runPassAux cmds 0 (res attempt)).2.1 = true
    ∧ (runPassAux cmds 0 (res attempt)).2.2 = none
    ∧ (∀ k ck, cmds.get? k = some ck → (res attempt k).success = false →
        (runPassAux cmds 0 (res attempt)).1.get? k = some { ck with status := CmdStatus.skipped })
    ∧ executeVerification cmds attempt maxRetries res fixThrows =
        { finalStatus := VStatus.passed, fixInvocations := 0
        , commands := (runPassAux cmds 0 (res attempt)).1, review := true } := by
  have haux := runPassAux_all_ok cmds 0 (res attempt) (by simpa using hall)
  refine ⟨haux.1, haux.2.1, ?_, ?_⟩
  · intro k ck hgetk hfailk
    have := haux.2.2 k ck hgetk
    rw [Nat.zero_add] at this
    rw [this, hfailk]
    rfl
  · unfold executeVerification
    rw [if_pos haux.1]

theorem optional_failures_never_block_witness :
    (runPassAux [cmdBuild0, cmdTest0, cmdLint0] 0 (failLastRes · )).2.1 = true
    ∧ executeVerification [cmdBuild0, cmdTest0, cmdLint0] 7 3 (fun _ => failLastRes) (fun _ => false) =
        { finalStatus := VStatus.passed, fixInvocations := 0
        , commands := (runPassAux [cmdBuild0, cmdTest0, cmdLint0] 0 failLastRes).1, review := true } := by
  have hall : ∀ k ck, [cmdBuild0, cmdTest0, cmdLint0].get? k = some ck →
      (failLastRes k).success = true ∨ ck.optional = true := by
    intro k ck hget
    match k, hget with
    | 0, hget => left; decide
    | 1, hget => left; decide
    | 2, hget =>
        right
        have : ck = cmdLint0 := by simpa using hget.symm
        rw [this]
        rfl
    | n + 3, hget => simp at hget
  have h := optional_failures_never_block [cmdBuild0, cmdTest0, cmdLint0] 7 3
    (fun _ => failLastRes) (fun _ => false) hall
  exact ⟨h.1, h.2.2.2⟩

theorem executeVerification_fix_le (k : Nat) :
    ∀ cmds attempt maxRetries res fixThrows, maxRetries - attempt ≤ k →
      (executeVerification cmds attempt maxRetries res fixThrows).fixInvocations ≤
        maxRetries - attempt := by
  induction k with
  | zero =>
      intro cmds attempt maxR res ft hk
      unfold executeVerification
      split
      · simp
      · split
        · rename_i hcond
          exact absurd hcond.1 (by omega)
        · simp
  | succ k ih =>
      intro cmds attempt maxR res ft hk
      unfold executeVerification
      split
      · simp
      · split
        · rename_i hcond
          split
          · simp
            omega
          · simp only
            have := ih (cmds.map fun c => { c with status := CmdStatus.pending })
              (attempt + 1) maxR res ft (by omega)
            omega
        · simp

/-- C1: with maxRetries = 3, starting at attempt 1 the fix-retry branch is entered at
most 2 times; a required failure on an attempt at or beyond maxRetries yields the
failed status with no fix invocation; a required failure below maxRetries whose fix
attempt throws yields the failed status after exactly that one branch entry; and a
fully passing attempt yields the passed status with no fix invocation. -/
theorem verification_retry_bound (cmds : List VerificationCommand)
    (res : Nat → Nat → SimResult) (fixThrows : Nat → Bool) :
    (executeVerification cmds 1 3 res fixThrows).fixInvocations ≤ 2
    ∧ (∀ attempt, 3 ≤ attempt → (runPassAux cmds 0 (res attempt)).2.1 = false →
        executeVerification cmds attempt 3 res fixThrows =
          { finalStatus := VStatus.failed, fixInvocations := 0
          , commands := (runPassAux cmds 0 (res attempt)).1, review := false })
    ∧ (∀ attempt, attempt < 3 → (runPassAux cmds 0 (res attempt)).2.1 = false →
        fixThrows attempt = true →
        executeVerification cmds attempt 3 res fixThrows =
          { finalStatus := VStatus.failed, fixInvocations := 1
          , commands := (runPassAux cmds 0 (res attempt)).1, review := false })
    ∧ (∀ attempt maxRetries, (runPassAux cmds 0 (res attempt)).2.1 = true →
        executeVerification cmds attempt maxRetries res fixThrows =
          { finalStatus := VStatus.passed, fixInvocations := 0
          , commands := (runPassAux cmds 0 (res attempt)).1, review := true }) := by
  refine ⟨?_, ?_, ?_, ?_⟩
  · have h := executeVerification_fix_le 2 cmds 1 3 res fixThrows (by omega)
    omega
  · intro attempt h3 hfail
    unfold executeVerification
    rw [if_neg (by simp [hfail]), dif_neg (fun hcond => absurd hcond.1 (by omega))]
  · intro attempt hlt hfail hthrow
    unfold executeVerification
    rw [if_neg (by simp [hfail]),
      dif_pos ⟨hlt, runPassAux_failed_isSome cmds 0 (res attempt) hfail⟩, if_pos hthrow]
  · intro attempt maxR hpass
    unfold executeVerification
    rw [if_pos hpass]

theorem verification_retry_bound_witness :
    (executeVerification [cmdBuild0, cmdTest0, cmdLint0] 1 3 alwaysFailRes
        (fun _ => false)).fixInvocations ≤ 2
    ∧ executeVerification [cmdBuild0, cmdTest0, cmdLint0] 3 3 alwaysFailRes (fun _ => false) =
        { finalStatus := VStatus.failed, fixInvocations := 0
        , commands := (runPassAux [cmdBuild0, cmdTest0, cmdLint0] 0 (alwaysFailRes 3)).1
        , review := false } := by
  have h := verification_retry_bound [cmdBuild0, cmdTest0, cmdLint0] alwaysFailRes (fun _ => false)
  exact ⟨h.1, h.2.1 3 (by omega) (by decide)⟩

/-! ## Verification command discovery (C6) -/

/-- C6 counterexample: with only a pyproject.toml containing pytest and mypy markers,
discovery emits the test command (pytest) before the typecheck command (mypy), so the
claimed global emission priority build, typecheck, test, lint does not hold. -/
theorem discovery_order_counterexample :
    (discoverVerificationCommands pyProject0).sources = ["pyproject.toml"]
    ∧ ((discoverVerificationCommands pyProject0).commands.map (fun c => c.type)) =
        [CmdType.test, CmdType.typecheck]
    ∧ ranksSorted ((discoverVerificationCommands pyProject0).commands.map
        (fun c => typeRank c.type)) = false := by
  decide

theorem pkgCommands_flags (s : Scripts) : ∀ c ∈ pkgCommands s,
    ((c.type = CmdType.build ∨ c.type = CmdType.test) → c.optional = false)
    ∧ ((c.type = CmdType.typecheck ∨ c.type = CmdType.lint) → c.optional = true) := by
  intro c h
  simp only [pkgCommands, List.mem_append] at h
  rcases h with ((h | h) | h) | h <;> split_ifs at h <;> simp_all <;> subst h <;> decide

theorem pyCommands_flags (m : PyMarkers) : ∀ c ∈ pyCommands m,
    ((c.type = CmdType.build ∨ c.type = CmdType.test) → c.optional = false)
    ∧ ((c.type = CmdType.typecheck ∨ c.type = CmdType.lint) → c.optional = true) := by
  intro c h
  simp only [pyCommands, List.mem_append] at h
  rcases h with (h | h) | h <;> split_ifs at h <;> simp_all <;> subst h <;> decide

theorem makeCommands_flags (ts : List String) : ∀ c ∈ makeCommands ts,
    ((c.type = CmdType.build ∨ c.type = CmdType.test) → c.optional = false)
    ∧ ((c.type = CmdType.typecheck ∨ c.type = CmdType.lint) → c.optional = true) := by
  intro c h
  simp only [makeCommands, List.mem_append] at h
  rcases h with ((h | h) | h) | h <;> split_ifs at h <;> simp_all <;> subst h <;> decide

theorem pkgCommands_types (s : Scripts) :
    ((pkgCommands s).map (fun c => c.type)).Sublist
      [CmdType.build, CmdType.typecheck, CmdType.test, CmdType.lint] := by
  show ((pkgCommands s).map (fun c => c.type)).Sublist
    ((([CmdType.build] ++ [CmdType.typecheck]) ++ [CmdType.test]) ++ [CmdType.lint])
  unfold pkgCommands
  simp only [List.map_append]
  refine List.Sublist.append (List.Sublist.append (List.Sublist.append ?_ ?_) ?_) ?_ <;>
    split_ifs <;> simp [createCommand]

theorem pyCommands_types (m : PyMarkers) :
    ((pyCommands m).map (fun c => c.type)).Sublist
      [CmdType.test, CmdType.typecheck, CmdType.lint] := by
  show ((pyCommands m).map (fun c => c.type)).Sublist
    (([CmdType.test] ++ [CmdType.typecheck]) ++ [CmdType.lint])
  unfold pyCommands
  simp only [List.map_append]
  refine List.Sublist.append (List.Sublist.append ?_ ?_) ?_ <;>
    split_ifs <;> simp [createCommand]

theorem makeCommands_types (ts : List String) :
    ((makeCommands ts).map (fun c => c.type)).Sublist
      [CmdType.build, CmdType.test, CmdType.lint, CmdType.typecheck] := by
  show ((makeCommands ts).map (fun c => c.type)).Sublist
    ((([CmdType.build] ++ [CmdType.test]) ++ [CmdType.lint]) ++ [CmdType.typecheck])
  unfold makeCommands
  simp only [List.map_append]
  refine List.Sublist.append (List.Sublist.append (List.Sublist.append ?_ ?_) ?_) ?_ <;>
    split_ifs <;> simp [createCommand]

theorem cargoStage_skip (p : Project) (st : List VerificationCommand × List String)
    (h : st.1 ≠ []) : cargoStage p st = st := by
  unfold cargoStage
  rw [if_neg]
  rintro ⟨_, hlen⟩
  exact h (List.length_eq_zero.mp hlen)

theorem pyStage_skip (p : Project) (st : List VerificationCommand × List String)
    (h : st.1 ≠ []) : pyStage p st = st := by
  unfold pyStage
  rw [if_neg]
  intro hlen
  exact h (List.length_eq_zero.mp hlen)

theorem goStage_skip (p : Project) (st : List VerificationCommand × List String)
    (h : st.1 ≠ []) : goStage p st = st := by
  unfold goStage
  rw [if_neg]
  rintro ⟨_, hlen⟩
  exact h (List.length_eq_zero.mp hlen)

theorem makeStage_skip (p : Project) (st : List VerificationCommand × List String)
    (h : st.1 ≠ []) : makeStage p st = st := by
  unfold makeStage
  rw [if_neg]
  intro hlen
  exact h (List.length_eq_zero.mp hlen)

theorem pkgStage_fire (p : Project) (s : Scripts) (hs : p.packageJson = some (some s))
    (hne : pkgCommands s ≠ []) : pkgStage p = (pkgCommands s, ["package.json"]) := by
  unfold pkgStage
  rw [hs]
  show (pkgCommands s, if (pkgCommands s).length > 0 then ["package.json"] else []) = _
  rw [if_pos (List.length_pos.mpr hne)]

theorem pkgStage_empty (p : Project)
    (h : ∀ s, p.packageJson = some (some s) → pkgCommands s = []) :
    pkgStage p = ([], []) := by
  unfold pkgStage
  rcases hpj : p.packageJson with _ | (_ | s)
  · rfl
  · rfl
  · show (pkgCommands s, if (pkgCommands s).length > 0 then ["package.json"] else []) = ([], [])
    rw [h s hpj]
    rfl

theorem cargoStage_fire (p : Project) (st : List VerificationCommand × List String)
    (hst : st.1 = []) (hc : p.cargoToml = true) :
    cargoStage p st = (cargoCommands, st.2 ++ ["Cargo.toml"]) := by
  unfold cargoStage
  rw [if_pos ⟨hc, by rw [hst]; rfl⟩]

theorem cargoStage_noop (p : Project) (st : List VerificationCommand × List String)
    (hc : p.cargoToml = false) : cargoStage p st = st := by
  unfold cargoStage
  rw [if_neg]
  rintro ⟨h1, _⟩
  rw [hc] at h1
  exact Bool.false_ne_true h1

theorem pyStage_fire (p : Project) (st : List VerificationCommand × List String)
    (m : PyMarkers) (hst : st.1 = []) (hm : p.pyproject = some (some m))
    (hmne : pyCommands m ≠ []) :
    pyStage p st = (pyCommands m, st.2 ++ ["pyproject.toml"]) := by
  unfold pyStage
  rw [if_pos (by rw [hst]; rfl), hm]
  show (pyCommands m, if (pyCommands m).length > 0 then st.2 ++ ["pyproject.toml"] else st.2) = _
  rw [if_pos (List.length_pos.mpr hmne)]

theorem pyStage_none (p : Project) (st : List VerificationCommand × List String)
    (hst : st.1 = []) (h : ∀ m, p.pyproject = some (some m) → pyCommands m = []) :
    pyStage p st = st := by
  obtain ⟨a, b⟩ := st
  simp only at hst
  subst hst
  unfold pyStage
  have hcond : ((([] : List VerificationCommand), b)).1.length = 0 := rfl
  rw [if_pos hcond]
  rcases hpj : p.pyproject with _ | (_ | m)
  · rfl
  · rfl
  · show (pyCommands m, if (pyCommands m).length > 0 then b ++ ["pyproject.toml"] else b) = ([], b)
    rw [h m hpj]
    rfl

theorem goStage_fire (p : Project) (st : List VerificationCommand × List String)
    (hst : st.1 = []) (hg : p.goMod = true) :
    goStage p st = (goCommands, st.2 ++ ["go.mod"]) := by
  unfold goStage
  rw [if_pos ⟨hg, by rw [hst]; rfl⟩]

theorem goStage_noop (p : Project) (st : List VerificationCommand × List String)
    (hg : p.goMod = false) : goStage p st = st := by
  unfold goStage
  rw [if_neg]
  rintro ⟨h1, _⟩
  rw [hg] at h1
  exact Bool.false_ne_true h1

theorem makeStage_fire (p : Project) (st : List VerificationCommand × List String)
    (ts : List String) (hst : st.1 = []) (hts : p.makefile = some (some ts))
    (htsne : makeCommands ts ≠ []) :
    makeStage p st = (makeCommands ts, st.2 ++ ["Makefile"]) := by
  unfold makeStage
  rw [if_pos (by rw [hst]; rfl), hts]
  show (makeCommands ts, if (makeCommands ts).length > 0 then st.2 ++ ["Makefile"] else st.2) = _
  rw [if_pos (List.length_pos.mpr htsne)]

theorem makeStage_none (p : Project) (st : List VerificationCommand × List String)
    (hst : st.1 = []) (h : ∀ ts, p.makefile = some (some ts) → makeCommands ts = []) :
    makeStage p st = st := by
  obtain ⟨a, b⟩ := st
  simp only at hst
  subst hst
  unfold makeStage
  have hcond : ((([] : List VerificationCommand), b)).1.length = 0 := rfl
  rw [if_pos hcond]
  rcases hpj : p.makefile with _ | (_ | ts)
  · rfl
  · rfl
  · show (makeCommands ts, if (makeCommands ts).length > 0 then b ++ ["Makefile"] else b) = ([], b)
    rw [h ts hpj]
    rfl

theorem discover_shape (p : Project) :
    discoverVerificationCommands p = ⟨[], []⟩
    ∨ (∃ s, p.packageJson = some (some s) ∧
        discoverVerificationCommands p = ⟨pkgCommands s, ["package.json"]⟩)
    ∨ discoverVerificationCommands p = ⟨cargoCommands, ["Cargo.toml"]⟩
    ∨ (∃ m, p.pyproject = some (some m) ∧
        discoverVerificationCommands p = ⟨pyCommands m, ["pyproject.toml"]⟩)
    ∨ discoverVerificationCommands p = ⟨goCommands, ["go.mod"]⟩
    ∨ (∃ ts, p.makefile = some (some ts) ∧
        discoverVerificationCommands p = ⟨makeCommands ts, ["Makefile"]⟩) := by
  by_cases hpkg : ∃ s, p.packageJson = some (some s) ∧ pkgCommands s ≠ []
  · obtain ⟨s, hs, hne⟩ := hpkg
    refine Or.inr (Or.inl ⟨s, hs, ?_⟩)
    unfold discoverVerificationCommands
    rw [pkgStage_fire p s hs hne, cargoStage_skip p _ hne, pyStage_skip p _ hne,
      goStage_skip p _ hne, makeStage_skip p _ hne]
  · have h1 : pkgStage p = ([], []) := by
      refine pkgStage_empty p ?_
      intro s hs
      by_contra hne
      exact hpkg ⟨s, hs, hne⟩
    cases hc : p.cargoToml with
    | true =>
        refine Or.inr (Or.inr (Or.inl ?_))
        unfold discoverVerificationCommands
        rw [h1, cargoStage_fire p ([], []) rfl hc, pyStage_skip p _ (by decide),
          goStage_skip p _ (by decide), makeStage_skip p _ (by decide)]
        rfl
    | false =>
        have h2 : cargoStage p (pkgStage p) = ([], []) := by
          rw [h1, cargoStage_noop p _ hc]
        by_cases hpy : ∃ m, p.pyproject = some (some m) ∧ pyCommands m ≠ []
        · obtain ⟨m, hm, hmne⟩ := hpy
          refine Or.inr (Or.inr (Or.inr (Or.inl ⟨m, hm, ?_⟩)))
          unfold discoverVerificationCommands
          rw [h2, pyStage_fire p ([], []) m rfl hm hmne, goStage_skip p _ hmne,
            makeStage_skip p _ hmne]
          rfl
        · have h3 : pyStage p (cargoStage p (pkgStage p)) = ([], []) := by
            rw [h2]
            refine pyStage_none p ([], []) rfl ?_
            intro m hm
            by_contra hne
            exact hpy ⟨m, hm, hne⟩
          cases hg : p.goMod with
          | true =>
              refine Or.inr (Or.inr (Or.inr (Or.inr (Or.inl ?_))))
              unfold discoverVerificationCommands
              rw [h3, goStage_fire p ([], []) rfl hg, makeStage_skip p _ (by decide)]
              rfl
          | false =>
              have h4 : goStage p (pyStage p (cargoStage p (pkgStage p))) = ([], []) := by
                rw [h3, goStage_noop p _ hg]
              by_cases hmk : ∃ ts, p.makefile = some (some ts) ∧ makeCommands ts ≠ []
              · obtain ⟨ts, hts, htsne⟩ := hmk
                refine Or.inr (Or.inr (Or.inr (Or.inr (Or.inr ⟨ts, hts, ?_⟩))))
                unfold discoverVerificationCommands
                rw [h4, makeStage_fire p ([], []) ts rfl hts htsne]
                rfl
              · refine Or.inl ?_
                unfold discoverVerificationCommands
                rw [h4]
                rw [makeStage_none p ([], []) rfl ?_]
                intro ts hts
                by_contra hne
                exact hmk ⟨ts, hts, hne⟩

/-- C6 amended: discovery probes manifests in the fixed priority order package.json,
Cargo.toml, pyproject.toml, go.mod, Makefile and stops at the first ecosystem that
yields at least one command, so ecosystems are never merged (at most one source);
build and test commands are always required and typecheck and lint commands always
optional; and the winning ecosystem's commands appear in that ecosystem's own fixed
emission order — build, typecheck, test, lint for package.json; build, test, lint for
Cargo.toml and go.mod; test, typecheck, lint for pyproject.toml; build, test, lint,
typecheck for Makefile — rather than in one global type priority. -/
theorem discovery_amended (p : Project) :
    (∀ c ∈ (discoverVerificationCommands p).commands,
        ((c.type = CmdType.build ∨ c.type = CmdType.test) → c.optional = false)
        ∧ ((c.type = CmdType.typecheck ∨ c.type = CmdType.lint) → c.optional = true))
    ∧ (discoverVerificationCommands p).sources.length ≤ 1
    ∧ (∀ src ∈ (discoverVerificationCommands p).sources,
        ((discoverVerificationCommands p).commands.map (fun c => c.type)).Sublist (ecoOrder src))
    ∧ (∀ s, p.packageJson = some (some s) → pkgCommands s ≠ [] →
        discoverVerificationCommands p = ⟨pkgCommands s, ["package.json"]⟩)
    ∧ (pkgYield p = [] → p.cargoToml = true →
        discoverVerificationCommands p = ⟨cargoCommands, ["Cargo.toml"]⟩)
    ∧ (pkgYield p = [] → p.cargoToml = false → ∀ m, p.pyproject = some (some m) →
        pyCommands m ≠ [] →
        discoverVerificationCommands p = ⟨pyCommands m, ["pyproject.toml"]⟩)
    ∧ (pkgYield p = [] → p.cargoToml = false → pyYield p = [] → p.goMod = true →
        discoverVerificationCommands p = ⟨goCommands, ["go.mod"]⟩)
    ∧ (pkgYield p = [] → p.cargoToml = false → pyYield p = [] → p.goMod = false →
        ∀ ts, p.makefile = some (some ts) → makeCommands ts ≠ [] →
        discoverVerificationCommands p = ⟨makeCommands ts, ["Makefile"]⟩) := by
  have hpkgEmpty : pkgYield p = [] → pkgStage p = ([], []) := by
    intro hy
    refine pkgStage_empty p ?_
    intro s hs
    rw [pkgYield, hs] at hy
    exact hy
  have hpyEmpty : pyYield p = [] → ∀ m, p.pyproject = some (some m) → pyCommands m = [] := by
    intro hy m hm
    rw [pyYield, hm] at hy
    exact hy
  refine ⟨?_, ?_, ?_, ?_, ?_, ?_, ?_, ?_⟩
  · rcases discover_shape p with h | ⟨s, _, h⟩ | h | ⟨m, _, h⟩ | h | ⟨ts, _, h⟩ <;> rw [h]
    · intro c hc
      simp at hc
    · exact pkgCommands_flags s
    · decide
    · exact pyCommands_flags m
    · decide
    · exact makeCommands_flags ts
  · rcases discover_shape p with h | ⟨s, _, h⟩ | h | ⟨m, _, h⟩ | h | ⟨ts, _, h⟩ <;> rw [h] <;>
      simp
  · rcases discover_shape p with h | ⟨s, _, h⟩ | h | ⟨m, _, h⟩ | h | ⟨ts, _, h⟩ <;> rw [h] <;>
      intro src hsrc <;> simp only [List.mem_singleton] at hsrc
    · simp at hsrc
    · subst hsrc
      exact pkgCommands_types s
    · subst hsrc
      rw [show (cargoCommands.map fun c => c.type) =
        [CmdType.build, CmdType.test, CmdType.lint] from by decide]
      exact List.Sublist.refl _
    · subst hsrc
      exact pyCommands_types m
    · subst hsrc
      rw [show (goCommands.map fun c => c.type) =
        [CmdType.build, CmdType.test, CmdType.lint] from by decide]
      exact List.Sublist.refl _
    · subst hsrc
      exact makeCommands_types ts
  · intro s hs hne
    unfold discoverVerificationCommands
    rw [pkgStage_fire p s hs hne, cargoStage_skip p _ hne, pyStage_skip p _ hne,
      goStage_skip p _ hne, makeStage_skip p _ hne]
  · intro hy hc
    unfold discoverVerificationCommands
    rw [hpkgEmpty hy, cargoStage_fire p ([], []) rfl hc, pyStage_skip p _ (by decide),
      goStage_skip p _ (by decide), makeStage_skip p _ (by decide)]
    rfl
  · intro hy hc m hm hmne
    unfold discoverVerificationCommands
    rw [hpkgEmpty hy, cargoStage_noop p _ hc, pyStage_fire p ([], []) m rfl hm hmne,
      goStage_skip p _ hmne, makeStage_skip p _ hmne]
    rfl
  · intro hy hc hpy hg
    unfold discoverVerificationCommands
    rw [hpkgEmpty hy, cargoStage_noop p _ hc, pyStage_none p ([], []) rfl (hpyEmpty hpy),
      goStage_fire p ([], []) rfl hg, makeStage_skip p _ (by decide)]
    rfl
  · intro hy hc hpy hg ts hts htsne
    unfold discoverVerificationCommands
    rw [hpkgEmpty hy, cargoStage_noop p _ hc, pyStage_none p ([], []) rfl (hpyEmpty hpy),
      goStage_noop p _ hg, makeStage_fire p ([], []) ts rfl hts htsne]
    rfl

theorem discovery_amended_witness :
    ((discoverVerificationCommands pyProject0).commands.map (fun c => c.type)).Sublist
      (ecoOrder "pyproject.toml")
    ∧ discoverVerificationCommands pyProject0 =
        ⟨pyCommands { pytest := true, mypy := true, ruff := false }, ["pyproject.toml"]⟩ := by
  have h := discovery_amended pyProject0
  exact ⟨h.2.2.1 "pyproject.toml" (by decide),
    h.2.2.2.2.2.1 (by decide) (by decide)
      { pytest := true, mypy := true, ruff := false } rfl (by decide)⟩

theorem parser_missing_field_defaults_witness :
    (blockToItem 0 (("HIGH").data) (("t").data) bareBody0).line = none
    ∧ (blockToItem 0 (("HIGH").data) (("t").data) bareBody0).file = "unknown"
    ∧ (blockToItem 0 (("HIGH").data) (("t").data) bareBody0).description = ""
    ∧ (blockToItem 0 (("HIGH").data) (("t").data) bareBody0).category = "style-inconsistency" := by
  have h := parser_missing_field_defaults 0 (("HIGH").data) (("t").data) bareBody0
  exact ⟨h.1 (by decide), h.2.1 (by decide), h.2.2.1 (by decide), h.2.2.2.1 (by decide)⟩

/-! ## Markdown round-trip machinery (C7) -/

theorem dropWhile_ne_head (p : Char → Bool) (a : List Char) (hne : a ≠ [])
    (hhead : ∀ c, a.head? = some c → p c = false) : a.dropWhile p = a := by
  cases a with
  | nil => rfl
  | cons c a => rw [List.dropWhile_cons_of_neg (by simp [hhead c rfl])]

/-! Decompositions of the bullet literals around their field markers; all are
definitional. -/

end Deslop
